import Mathlib

/-
Verification of the OMR sheet generator (app.py) against its design
specification.  The Python source is shallowly embedded below: each
utility function of the program becomes a Lean definition of the same
name, operating on an explicit model of spreadsheet cell values and on
character lists (Lean strings).  Numeric page coordinates are modelled
with exact rationals, which gives the real-number semantics of the
arithmetic expressions appearing in the source; the calibration
constants are decimal literals, represented exactly.
-/

namespace OMR

/-- Model of a raw spreadsheet cell value as the Python code sees it:
a missing value (NaN or None, detected by pd.isna), a string, an int,
or a float whose value is exactly the integer n.  Floats with a
fractional part reach the program only through their string form and
can be modelled with the str constructor. -/
inductive CellVal
  | na
  | str (s : String)
  | int (n : Int)
  | intFloat (n : Int)
deriving DecidableEq

/-- Whitespace test of Python str.strip and the regex class backslash-s,
restricted to ASCII (space, tab, newline, vertical tab, form feed,
carriage return). -/
def pyIsSpace (c : Char) : Bool := decide (c.toNat = 32 ∨ (9 ≤ c.toNat ∧ c.toNat ≤ 13))

/-- Decimal digit test, as used by the regex class backslash-d and by
str.isdigit, restricted to ASCII. -/
def pyIsDigit (c : Char) : Bool := decide (48 ≤ c.toNat ∧ c.toNat ≤ 57)

/-- Python str.strip on a character list: remove leading and trailing
whitespace. -/
def pyStripList (l : List Char) : List Char :=
  ((l.dropWhile pyIsSpace).reverse.dropWhile pyIsSpace).reverse

/-- Python str.strip. -/
def pyStrip (s : String) : String := ⟨pyStripList s.data⟩

/-- Python str.lower, ASCII letters only (the inputs of interest are
ASCII; Char.toLower lowers exactly the basic latin letters). -/
def pyLower (s : String) : String := ⟨s.data.map Char.toLower⟩

/-- Python str(v) for a cell value.  For an integer-valued float,
str produces the integer digits followed by a trailing .0 (true for
all values of magnitude below 10^16, in particular for the roll-number
range considered here). -/
def pyStr : CellVal → String
  | .na => "nan"
  | .str s => s
  | .int n => Int.repr n
  | .intFloat n => Int.repr n ++ ".0"

/-- Python str.zfill: pad with leading zeros to the given width; a
leading sign character stays in front of the inserted zeros. -/
def pyZfill (s : String) (w : Nat) : String :=
  match s.data with
  | [] => ⟨List.replicate w '0'⟩
  | c :: rest =>
    if c = '+' ∨ c = '-' then ⟨c :: (List.replicate (w - 1 - rest.length) '0' ++ rest)⟩
    else ⟨List.replicate (w - (c :: rest).length) '0' ++ (c :: rest)⟩

/-- Python string slicing s[:n]. -/
def pyTake (s : String) (n : Nat) : String := ⟨s.data.take n⟩

/-! ## Filename sanitizer (safe_filename, app.py lines 55-59) -/

/-- The characters replaced by the first regex substitution in
safe_filename: backslash, slash, star, question mark, colon, double
quote, angle brackets, pipe. -/
def ILLEGAL_FILENAME_CHARS : List Char := ['\\', '/', '*', '?', ':', '"', '<', '>', '|']

/-- One character step of the first substitution in safe_filename. -/
def replaceIllegal (c : Char) : Char := if c ∈ ILLEGAL_FILENAME_CHARS then '_' else c

/-- The second substitution in safe_filename: each maximal whitespace
run becomes a single underscore.  The boolean records whether the
previous character was inside a whitespace run. -/
def collapseWsAux : Bool → List Char → List Char
  | _, [] => []
  | inRun, c :: rest =>
    if pyIsSpace c then
      if inRun then collapseWsAux true rest else '_' :: collapseWsAux true rest
    else c :: collapseWsAux false rest

/-- safe_filename from app.py: strip, replace illegal filename
characters by underscore, collapse whitespace runs to one underscore,
truncate to 200 characters. -/
def safe_filename (s : String) : String :=
  let s1 := pyStrip s
  let s2 := s1.data.map replaceIllegal
  let s3 := collapseWsAux false s2
  ⟨s3.take 200⟩

/-! ## Calibration constants (app.py lines 24-35) -/

def MASTER_ROLL_X_CM : List ℚ := [10.1, 11.5, 12.9]

def MASTER_BUBBLE_Y_TOP_CM : List ℚ := [22, 22, 22]

def MASTER_BUBBLE_SPACING_CM : ℚ := 0.62

def MASTER_BUBBLE_RADIUS_CM : ℚ := 0.24

def SHIFT_X_CM : ℚ := 6

def SHIFT_Y_CM : ℚ := -0.3

def CHILD_ROLL_X_CM : List ℚ := [9.9 + SHIFT_X_CM, 11.3 + SHIFT_X_CM, 12.6 + SHIFT_X_CM]

def CHILD_BUBBLE_Y_TOP_CM : List ℚ :=
  [21.5 + SHIFT_Y_CM, 21.5 + SHIFT_Y_CM, 21.5 + SHIFT_Y_CM]

def CHILD_BUBBLE_SPACING_CM : ℚ := 0.61

def CHILD_BUBBLE_RADIUS_CM : ℚ := 0.23

/-! ## Template variant selection (app.py lines 199-205) -/

inductive TemplateVariant
  | master
  | child
deriving DecidableEq

/-- The per-row template choice of the orchestrator: child when the
parsed class is not None and is one of 1, 2, 3; master otherwise. -/
def select_variant : Option Int → TemplateVariant
  | some n => if n = 1 ∨ n = 2 ∨ n = 3 then .child else .master
  | none => .master

/-! ## Output archive naming (app.py lines 174-252) -/

/-- The sequence of entry names written into the output zip: one entry
per worksheet, named by the sanitized sheet name followed by the pdf
suffix. -/
def archive_entries (sheet_names : List String) : List String :=
  sheet_names.map (fun n => safe_filename n ++ ".pdf")

/-! ## Bubble geometry (app.py lines 72-93) -/

/-- The reportlab length unit cm, in page points: 72 / 2.54.  The
coordinate arithmetic of the source is modelled with exact rationals
(the real-number semantics of the arithmetic expressions). -/
def cm : ℚ := 72 / 2.54

/-- A filled-circle instruction: centre coordinates and radius in page
points. -/
structure Bubble where
  x : ℚ
  y : ℚ
  r : ℚ
deriving DecidableEq

/-- Python int(ch) for a single digit character. -/
def charDigitVal (c : Char) : Nat := c.toNat - 48

/-- The common loop body of fill_roll_bubbles_master and
fill_roll_bubbles_child: enumerate the characters of the padded roll
string from index i, skip non-digits, and for a digit look up the
column constants at the current index and emit a filled circle.  An
out-of-range index is a Python IndexError, modelled as none. -/
def fillBubblesFrom (xs ys : List ℚ) (spacing radius offset : ℚ) :
    Nat → List Char → Option (List Bubble)
  | _, [] => some []
  | i, c :: rest =>
    if pyIsDigit c then
      match xs[i]?, ys[i]? with
      | some xc, some yt =>
        match fillBubblesFrom xs ys spacing radius offset (i + 1) rest with
        | some bs =>
          some (⟨xc * cm / 2.2,
                 yt * cm - (charDigitVal c : ℚ) * spacing * cm - 2.6 * cm + offset * cm,
                 radius * cm⟩ :: bs)
        | none => none
      | _, _ => none
    else fillBubblesFrom xs ys spacing radius offset (i + 1) rest

/-- fill_roll_bubbles_master from app.py: zero-fill the roll string to
width 3, then draw one bubble per digit with the master constants and
the master fine-tune offset 0.03 cm. -/
def fill_roll_bubbles_master (roll_no : String) : Option (List Bubble) :=
  fillBubblesFrom MASTER_ROLL_X_CM MASTER_BUBBLE_Y_TOP_CM MASTER_BUBBLE_SPACING_CM
    MASTER_BUBBLE_RADIUS_CM 0.03 0 (pyZfill roll_no 3).data

/-- fill_roll_bubbles_child from app.py: same loop with the child
constants and the child fine-tune offset 0.2 cm. -/
def fill_roll_bubbles_child (roll_no : String) : Option (List Bubble) :=
  fillBubblesFrom CHILD_ROLL_X_CM CHILD_BUBBLE_Y_TOP_CM CHILD_BUBBLE_SPACING_CM
    CHILD_BUBBLE_RADIUS_CM 0.2 0 (pyZfill roll_no 3).data

/-- Modelled from the spec, section 4.4: the bubble for digit value d
at column i sits at y = column_y_top[i] - d * row_spacing - 2.6 cm +
fine-tune offset, and at x = (column x in cm) * cm / 2.2. -/
def specBubbleAt (xs ys : List ℚ) (spacing radius offset : ℚ) (i : Nat) (d : Nat) : Bubble :=
  ⟨(xs.getD i 0) * cm / 2.2,
   (ys.getD i 0) * cm - (d : ℚ) * spacing * cm - 2.6 * cm + offset * cm,
   radius * cm⟩

/-- Modelled from the spec, section 4.4: digits of the roll string are
processed left to right, each digit producing the bubble of
specBubbleAt for its index, non-digit characters producing nothing. -/
def specBubbles (xs ys : List ℚ) (spacing radius offset : ℚ) (s : String) : List Bubble :=
  s.data.enum.filterMap fun p =>
    if pyIsDigit p.2 then some (specBubbleAt xs ys spacing radius offset p.1 (charDigitVal p.2))
    else none

/-! ## Grade parsing (parse_class_value, app.py lines 113-141) -/

/-- Decimal value of a digit string, as Python int on an all-digit
string. -/
def digitsToNat (l : List Char) : Nat := l.foldl (fun a c => a * 10 + (c.toNat - 48)) 0

/-- Split a character list into its maximal leading digit run and the
rest. -/
def pySpanDigits : List Char → List Char × List Char
  | [] => ([], [])
  | c :: rest =>
    if pyIsDigit c then
      let p := pySpanDigits rest
      (c :: p.1, p.2)
    else ([], c :: rest)

/-- The first maximal digit run of a character list, as matched by the
regex digit-group search in parse_class_value. -/
def firstDigitRun : List Char → Option (List Char)
  | [] => none
  | c :: rest => if pyIsDigit c then some (c :: (pySpanDigits rest).1) else firstDigitRun rest

/-- Python str.isdigit: nonempty and all digits (ASCII model). -/
def pyIsDigitStr (s : String) : Bool := !s.data.isEmpty && s.data.all pyIsDigit

/-- The roman_map dictionary of parse_class_value. -/
def romanMap : List (String × Int) :=
  [("i", 1), ("ii", 2), ("iii", 3), ("iv", 4), ("v", 5),
   ("vi", 6), ("vii", 7), ("viii", 8), ("ix", 9), ("x", 10),
   ("xi", 11), ("xii", 12)]

/-- The words_map dictionary of parse_class_value. -/
def wordsMap : List (String × Int) :=
  [("first", 1), ("second", 2), ("third", 3), ("fourth", 4), ("fifth", 5),
   ("sixth", 6), ("seventh", 7), ("eighth", 8), ("ninth", 9), ("tenth", 10),
   ("eleventh", 11), ("twelfth", 12)]

/-- parse_class_value from app.py: missing value gives None; the
stripped lower-cased string is parsed as an integer when all digits;
otherwise the first digit run is extracted; otherwise the exact roman
numeral and ordinal word tables are consulted; otherwise None. -/
def parse_class_value (v : CellVal) : Option Int :=
  match v with
  | .na => none
  | _ =>
    let s := pyLower (pyStrip (pyStr v))
    if pyIsDigitStr s then some (digitsToNat s.data)
    else
      match firstDigitRun s.data with
      | some run => some (digitsToNat run)
      | none =>
        match romanMap.lookup s with
        | some n => some n
        | none =>
          match wordsMap.lookup s with
          | some n => some n
          | none => none

/-! ## Roll-number normalization (format_roll_value, app.py lines 62-68) -/

/-- Read an optional leading sign, as the float literal grammar of
Python does. -/
def parseSign : List Char → Bool × List Char
  | [] => (false, [])
  | c :: rest =>
    if c = '-' then (true, rest)
    else if c = '+' then (false, rest)
    else (false, c :: rest)

/-- Parse the optional exponent suffix of a Python float literal; the
whole remaining input must be consumed. -/
def parseExpPart : List Char → Option Int
  | [] => some 0
  | c :: rest =>
    if c = 'e' ∨ c = 'E' then
      let sl := parseSign rest
      let p := pySpanDigits sl.2
      if p.1.isEmpty ∨ !p.2.isEmpty then none
      else some (if sl.1 then -(digitsToNat p.1 : Int) else (digitsToNat p.1 : Int))
    else none

/-- Python int(float(s)): parse s as a float literal (optional sign,
digits with optional fraction, optional exponent, surrounding
whitespace allowed) and truncate toward zero; none models ValueError.
The decimal value is taken exactly, which agrees with the
double-then-truncate of the source for every literal of at most 15
significant digits; the special float spellings inf and nan are
outside the model (they do not occur as roll numbers; in the source
nan falls through like a parse failure and inf raises). -/
def pyIntOfFloatStr (s : String) : Option Int :=
  let l := pyStripList s.data
  let sl := parseSign l
  let ip := pySpanDigits sl.2
  let fr : List Char × List Char :=
    match ip.2 with
    | '.' :: r => pySpanDigits r
    | _ => ([], ip.2)
  if ip.1.isEmpty ∧ fr.1.isEmpty then none
  else
    match parseExpPart fr.2 with
    | none => none
    | some e =>
      let mant := digitsToNat (ip.1 ++ fr.1)
      let shift : Int := e - fr.1.length
      let absVal : Nat := if 0 ≤ shift then mant * 10 ^ shift.toNat else mant / 10 ^ (-shift).toNat
      some (if sl.1 then -(absVal : Int) else (absVal : Int))

/-- Python int(float(v)) on a cell value; none models ValueError. -/
def pyCellToInt : CellVal → Option Int
  | .na => none
  | .str s => pyIntOfFloatStr s
  | .int n => some n
  | .intFloat n => some n

/-- format_roll_value from app.py: missing or blank gives 000;
otherwise the value is coerced through float to int and zero-filled to
width 3; if the coercion fails the raw string is zero-filled to 3 and
cut to its first 3 characters. -/
def format_roll_value (v : CellVal) : String :=
  if v = .na then "000"
  else if pyStrip (pyStr v) = "" then "000"
  else
    match pyCellToInt v with
    | some n => pyZfill (Int.repr n) 3
    | none => pyTake (pyZfill (pyStr v) 3) 3

/-! ## Column resolution (normalize_col_name and find_column, app.py lines 39-52) -/

/-- normalize_col_name from app.py: a falsy (empty) header gives the
empty string; otherwise lower-case, strip, and delete every character
outside a-z and 0-9. -/
def normalize_col_name (s : String) : String :=
  if s = "" then ""
  else ⟨(pyStrip (pyLower s)).data.filter fun c => pyIsDigit c || decide (97 ≤ c.toNat ∧ c.toNat ≤ 122)⟩

/-- Does the first list occur at the head of the second one? -/
def matchesAt : List Char → List Char → Bool
  | [], _ => true
  | _ :: _, [] => false
  | a :: as, b :: bs => a == b && matchesAt as bs

/-- Python substring containment a in s on character lists. -/
def containsSub : List Char → List Char → Bool
  | [], a => a.isEmpty
  | c :: rest, a => matchesAt a (c :: rest) || containsSub rest a

/-- find_column from app.py: first pass returns the first column whose
normalized name equals some alias; the second pass returns the first
column whose normalized name contains some alias; otherwise None.
Columns are given as (original, normalized) pairs in header order. -/
def find_column (df_cols_norm : List (String × String)) (aliases : List String) : Option String :=
  match df_cols_norm.find? (fun p => aliases.any fun a => p.2 == a) with
  | some p => some p.1
  | none =>
    match df_cols_norm.find? (fun p => aliases.any fun a => containsSub p.2.data a.data) with
    | some p => some p.1
    | none => none

/-- The alias table of the orchestrator (app.py lines 178-184). -/
def ALIASES : List (String × List String) :=
  [("school_name", ["schoolname", "scoolname", "school"]),
   ("class", ["class", "grade", "standard"]),
   ("division", ["division", "section"]),
   ("roll_no", ["rollno", "rollnumber", "roll_no"]),
   ("student_name", ["nameofthestudent", "name", "studentname"])]

/-! ## Helper lemmas for the sanitizer -/

lemma mem_collapseWsAux {c : Char} :
    ∀ (b : Bool) (l : List Char), c ∈ collapseWsAux b l → c = '_' ∨ c ∈ l := by
  intro b l
  induction l generalizing b with
  | nil => intro h; simp [collapseWsAux] at h
  | cons a rest ih =>
    intro h
    by_cases ha : pyIsSpace a
    · by_cases hb : b
      · subst hb
        simp only [collapseWsAux, ha, if_true] at h
        rcases ih true h with h1 | h1
        · exact Or.inl h1
        · exact Or.inr (List.mem_cons_of_mem _ h1)
      · simp only [collapseWsAux, ha, if_true, Bool.not_eq_true] at h
        rw [if_neg hb] at h
        rcases List.mem_cons.mp h with h1 | h1
        · exact Or.inl h1
        · rcases ih true h1 with h2 | h2
          · exact Or.inl h2
          · exact Or.inr (List.mem_cons_of_mem _ h2)
    · simp only [collapseWsAux, ha, if_false, Bool.false_eq_true] at h
      rcases List.mem_cons.mp h with h1 | h1
      · exact Or.inr (h1 ▸ List.mem_cons_self a rest)
      · rcases ih false h1 with h2 | h2
        · exact Or.inl h2
        · exact Or.inr (List.mem_cons_of_mem _ h2)

lemma replaceIllegal_not_illegal (c : Char) : replaceIllegal c ∉ ILLEGAL_FILENAME_CHARS := by
  unfold replaceIllegal
  split
  · decide
  · assumption

lemma underscore_not_illegal : ('_' : Char) ∉ ILLEGAL_FILENAME_CHARS := by decide

/-- CLAIM C8.  The filename sanitizer never lets an illegal filename
character through, never produces more than 200 characters, and maps
the sample sheet name as the specification states. -/
theorem safe_filename_spec (s : String) :
    (safe_filename s).length ≤ 200 ∧
    (∀ c ∈ (safe_filename s).data, c ∉ ILLEGAL_FILENAME_CHARS) ∧
    safe_filename "My/Sheet:1" = "My_Sheet_1" := by
  refine ⟨?_, ?_, by decide⟩
  · show ((collapseWsAux false ((pyStrip s).data.map replaceIllegal)).take 200).length ≤ 200
    exact List.length_take_le _ _
  · intro c hc
    have hc' : c ∈ collapseWsAux false ((pyStrip s).data.map replaceIllegal) :=
      List.take_subset _ _ hc
    rcases mem_collapseWsAux false _ hc' with h | h
    · exact h ▸ underscore_not_illegal
    · rcases List.mem_map.mp h with ⟨c0, _, hc0⟩
      exact hc0 ▸ replaceIllegal_not_illegal c0

/-- Witness for C8 at a concrete input. -/
theorem safe_filename_spec_witness :
    (safe_filename "a b").length ≤ 200 ∧
    (∀ c ∈ (safe_filename "a b").data, c ∉ ILLEGAL_FILENAME_CHARS) ∧
    safe_filename "My/Sheet:1" = "My_Sheet_1" :=
  safe_filename_spec "a b"

/-- CLAIM C2, counterexample.  The child column x-positions and
y-origin are not the master constants shifted by plus 6 cm and minus
0.3 cm: in column 0 the master value is 10.1 while the child value is
15.9, which differs from 10.1 + 6; the child y-origin is 21.2 while
the master y-origin shifted is 22 - 0.3. -/
theorem child_constants_not_master_shifted :
    MASTER_ROLL_X_CM[0]? = some (10.1 : ℚ) ∧
    CHILD_ROLL_X_CM[0]? = some (15.9 : ℚ) ∧
    (15.9 : ℚ) ≠ 10.1 + SHIFT_X_CM ∧
    MASTER_BUBBLE_Y_TOP_CM[0]? = some (22 : ℚ) ∧
    CHILD_BUBBLE_Y_TOP_CM[0]? = some (21.2 : ℚ) ∧
    (21.2 : ℚ) ≠ 22 + SHIFT_Y_CM ∧
    CHILD_ROLL_X_CM ≠ MASTER_ROLL_X_CM.map (fun x => x + SHIFT_X_CM) ∧
    CHILD_BUBBLE_Y_TOP_CM ≠ MASTER_BUBBLE_Y_TOP_CM.map (fun y => y + SHIFT_Y_CM) := by
  refine ⟨rfl, ?_, ?_, rfl, ?_, ?_, ?_, ?_⟩
  · simp only [CHILD_ROLL_X_CM, SHIFT_X_CM, List.getElem?_cons_zero, Option.some.injEq]
    norm_num
  · simp only [SHIFT_X_CM]
    norm_num
  · simp only [CHILD_BUBBLE_Y_TOP_CM, SHIFT_Y_CM, List.getElem?_cons_zero, Option.some.injEq]
    norm_num
  · simp only [SHIFT_Y_CM]
    norm_num
  · simp only [CHILD_ROLL_X_CM, MASTER_ROLL_X_CM, SHIFT_X_CM, List.map, ne_eq,
      List.cons.injEq, not_and]
    intro h
    norm_num at h
  · simp only [CHILD_BUBBLE_Y_TOP_CM, MASTER_BUBBLE_Y_TOP_CM, SHIFT_Y_CM, List.map, ne_eq,
      List.cons.injEq, not_and]
    intro h
    norm_num at h

/-- CLAIM C2, amended.  The 6 cm horizontal and minus 0.3 cm vertical
shifts are applied to the child layout's own base coordinates (9.9,
11.3, 12.6 and 21.5), not to the master constants; the actual
child-minus-master differences are 5.8, 5.8, 5.7 cm horizontally and
minus 0.8 cm vertically, and spacing and radius are separate
per-variant values. -/
theorem child_constants_shift_spec :
    SHIFT_X_CM = 6 ∧
    SHIFT_Y_CM = -0.3 ∧
    CHILD_ROLL_X_CM = [9.9 + SHIFT_X_CM, 11.3 + SHIFT_X_CM, 12.6 + SHIFT_X_CM] ∧
    CHILD_BUBBLE_Y_TOP_CM = [21.5 + SHIFT_Y_CM, 21.5 + SHIFT_Y_CM, 21.5 + SHIFT_Y_CM] ∧
    CHILD_ROLL_X_CM.zipWith (fun a b => a - b) MASTER_ROLL_X_CM = [5.8, 5.8, 5.7] ∧
    CHILD_BUBBLE_Y_TOP_CM.zipWith (fun a b => a - b) MASTER_BUBBLE_Y_TOP_CM =
      [-0.8, -0.8, -0.8] ∧
    CHILD_BUBBLE_SPACING_CM ≠ MASTER_BUBBLE_SPACING_CM ∧
    CHILD_BUBBLE_RADIUS_CM ≠ MASTER_BUBBLE_RADIUS_CM := by
  refine ⟨rfl, rfl, rfl, rfl, ?_, ?_, ?_, ?_⟩
  · simp only [CHILD_ROLL_X_CM, MASTER_ROLL_X_CM, SHIFT_X_CM, List.zipWith]
    norm_num
  · simp only [CHILD_BUBBLE_Y_TOP_CM, MASTER_BUBBLE_Y_TOP_CM, SHIFT_Y_CM, List.zipWith]
    norm_num
  · simp only [CHILD_BUBBLE_SPACING_CM, MASTER_BUBBLE_SPACING_CM]
    norm_num
  · simp only [CHILD_BUBBLE_RADIUS_CM, MASTER_BUBBLE_RADIUS_CM]
    norm_num

/-- CLAIM C5.  The child template is selected exactly for parsed
grades 1, 2 and 3; every other integer grade and the unknown grade
select the master template. -/
theorem select_variant_spec (g : Option Int) :
    (select_variant g = .child ↔ g = some 1 ∨ g = some 2 ∨ g = some 3) ∧
    select_variant (some 1) = .child ∧
    select_variant (some 3) = .child ∧
    select_variant (some 4) = .master ∧
    select_variant none = .master := by
  refine ⟨?_, by decide, by decide, by decide, rfl⟩
  cases g with
  | none => simp [select_variant]
  | some n =>
    simp only [select_variant, Option.some.injEq]
    by_cases h : n = 1 ∨ n = 2 ∨ n = 3
    · rw [if_pos h]
      simp [h]
    · rw [if_neg h]
      constructor
      · intro hc; cases hc
      · intro hc; exact absurd hc h

/-- CLAIM C3, counterexample.  Two distinct worksheet names can
sanitize to the same archive entry name: a space and an underscore
both become an underscore, so the archive entry names are not pairwise
distinct even though the worksheet names are. -/
theorem archive_entries_collision :
    ("Term 1" : String) ≠ "Term_1" ∧
    archive_entries ["Term 1", "Term_1"] = ["Term_1.pdf", "Term_1.pdf"] ∧
    ¬ (archive_entries ["Term 1", "Term_1"]).Nodup := by
  refine ⟨by decide, by decide, by decide⟩

/-- CLAIM C3, amended.  The archive holds exactly one entry per
worksheet, named by the sanitized sheet name plus the pdf suffix, and
the entry names are pairwise distinct whenever the sanitized sheet
names (not merely the original names) are pairwise distinct. -/
theorem archive_entries_spec (names : List String)
    (h : (names.map safe_filename).Nodup) :
    (archive_entries names).length = names.length ∧
    archive_entries names = names.map (fun n => safe_filename n ++ ".pdf") ∧
    (archive_entries names).Nodup := by
  refine ⟨by simp [archive_entries], rfl, ?_⟩
  have heq : archive_entries names = (names.map safe_filename).map (fun n => n ++ ".pdf") := by
    simp [archive_entries]
  rw [heq]
  refine h.map ?_
  intro a b hab
  have hdata : a.data ++ (".pdf" : String).data = b.data ++ (".pdf" : String).data := by
    have := congrArg String.data hab
    simpa [String.data_append] using this
  have hd : a.data = b.data := List.append_cancel_right hdata
  cases a; cases b; cases hd; rfl

/-- Witness for the amended C3 at a concrete input. -/
theorem archive_entries_spec_witness :
    (archive_entries ["Sheet1", "Sheet2"]).length = (["Sheet1", "Sheet2"] : List String).length ∧
    archive_entries ["Sheet1", "Sheet2"] =
      (["Sheet1", "Sheet2"] : List String).map (fun n => safe_filename n ++ ".pdf") ∧
    (archive_entries ["Sheet1", "Sheet2"]).Nodup :=
  archive_entries_spec ["Sheet1", "Sheet2"] (by decide)

/-! ## Helper lemmas for zero-filling and stripping -/

lemma pyZfill_length (s : String) (w : Nat) : (pyZfill s w).length = max w s.length := by
  obtain ⟨l⟩ := s
  match l with
  | [] => simp [pyZfill, String.length]
  | c :: rest =>
    simp only [pyZfill]
    split
    · simp only [String.length, List.length_cons, List.length_append, List.length_replicate]
      omega
    · simp only [String.length, List.length_cons, List.length_append, List.length_replicate]
      omega

lemma pyZfill_of_le (s : String) (w : Nat) (h : w ≤ s.length) : pyZfill s w = s := by
  obtain ⟨l⟩ := s
  match l with
  | [] =>
    simp only [String.length, List.length_nil, Nat.le_zero] at h
    subst h
    rfl
  | c :: rest =>
    simp only [String.length, List.length_cons] at h
    simp only [pyZfill]
    split
    · have hz : w - 1 - rest.length = 0 := by omega
      rw [hz]
      simp
    · have hz : w - (c :: rest).length = 0 := by simp; omega
      rw [hz]
      simp

lemma pyTake_length (s : String) (n : Nat) : (pyTake s n).length = min n s.length := by
  obtain ⟨l⟩ := s
  simp [pyTake, String.length]

lemma dropWhile_of_all_neg {p : Char → Bool} {l : List Char}
    (h : ∀ c ∈ l, p c = false) : l.dropWhile p = l := by
  cases l with
  | nil => rfl
  | cons c rest =>
    rw [List.dropWhile_cons, if_neg]
    simp [h c (List.mem_cons_self c rest)]

lemma pyStripList_of_all_neg {l : List Char}
    (h : ∀ c ∈ l, pyIsSpace c = false) : pyStripList l = l := by
  unfold pyStripList
  rw [dropWhile_of_all_neg h, dropWhile_of_all_neg, List.reverse_reverse]
  intro c hc
  exact h c (List.mem_reverse.mp hc)

lemma pyStrip_of_all_neg {s : String}
    (h : ∀ c ∈ s.data, pyIsSpace c = false) : pyStrip s = s := by
  obtain ⟨l⟩ := s
  show String.mk (pyStripList l) = String.mk l
  rw [pyStripList_of_all_neg h]

lemma digit_not_space {c : Char} (h : pyIsDigit c = true) : pyIsSpace c = false := by
  have h' : 48 ≤ c.toNat ∧ c.toNat ≤ 57 := of_decide_eq_true h
  simp only [pyIsSpace, decide_eq_false_iff_not]
  omega

/-! ## Decimal representation facts for the bounded roll-number range -/

set_option maxRecDepth 10000 in
lemma natRepr_facts : ∀ m : Nat, m < 1000 →
    1 ≤ (Nat.repr m).length ∧ (Nat.repr m).length ≤ 3 ∧
    digitsToNat (Nat.repr m).data = m ∧
    ∀ c ∈ (Nat.repr m).data, pyIsDigit c = true := by decide

set_option maxRecDepth 4000 in
lemma natRepr_le2 : ∀ m : Nat, m < 100 → (Nat.repr m).length ≤ 2 := by decide


/-! ## Digit-run and float-literal parsing lemmas -/

lemma digit_ne_sign {c : Char} (h : pyIsDigit c = true) : c ≠ '-' ∧ c ≠ '+' := by
  constructor <;> intro hc <;> subst hc <;> exact absurd h (by decide)

lemma parseSign_no_sign {l : List Char}
    (h : ∀ d, l.head? = some d → d ≠ '-' ∧ d ≠ '+') :
    parseSign l = (false, l) := by
  cases l with
  | nil => rfl
  | cons c rest =>
    obtain ⟨h1, h2⟩ := h c rfl
    simp [parseSign, h1, h2]

lemma pySpanDigits_all {l : List Char} (h : ∀ c ∈ l, pyIsDigit c = true) :
    pySpanDigits l = (l, []) := by
  induction l with
  | nil => rfl
  | cons c rest ih =>
    have hc := h c (List.mem_cons_self c rest)
    simp only [pySpanDigits, hc, if_true]
    rw [ih (fun d hd => h d (List.mem_cons_of_mem c hd))]

lemma pySpanDigits_append {a t : List Char}
    (ht : ∀ d, t.head? = some d → pyIsDigit d = false) :
    pySpanDigits (a ++ t) = ((pySpanDigits a).1, (pySpanDigits a).2 ++ t) := by
  induction a with
  | nil =>
    simp only [List.nil_append]
    cases t with
    | nil => rfl
    | cons d t2 =>
      have hd := ht d rfl
      simp [pySpanDigits, hd]
  | cons c rest ih =>
    by_cases hc : pyIsDigit c = true
    · simp only [List.cons_append, pySpanDigits, hc, if_true, List.append_eq]
      rw [ih]
    · simp only [Bool.not_eq_true] at hc
      simp [pySpanDigits, hc]

lemma digitsToNat_append_zero (l : List Char) :
    digitsToNat (l ++ ['0']) = digitsToNat l * 10 := by
  unfold digitsToNat
  rw [List.foldl_append]
  simp

lemma pyIntOfFloatStr_digits {l : List Char} (hne : l ≠ [])
    (hall : ∀ c ∈ l, pyIsDigit c = true) :
    pyIntOfFloatStr ⟨l⟩ = some (digitsToNat l : Int) := by
  have hstrip : pyStripList l = l :=
    pyStripList_of_all_neg (fun c hc => digit_not_space (hall c hc))
  have hsign : parseSign l = (false, l) :=
    parseSign_no_sign (fun d hd => digit_ne_sign (hall d (List.mem_of_mem_head? hd)))
  have hspan : pySpanDigits l = (l, []) := pySpanDigits_all hall
  have hemp : l.isEmpty = false := by
    cases l with
    | nil => exact absurd rfl hne
    | cons c rest => rfl
  simp only [pyIntOfFloatStr, hstrip, hsign, hspan, hemp]
  simp [parseExpPart, digitsToNat]

lemma pyIntOfFloatStr_digits_dot0 {l : List Char} (hne : l ≠ [])
    (hall : ∀ c ∈ l, pyIsDigit c = true) :
    pyIntOfFloatStr ⟨l ++ ['.', '0']⟩ = some (digitsToNat l : Int) := by
  have hnospace : ∀ c ∈ l ++ ['.', '0'], pyIsSpace c = false := by
    intro c hc
    rcases List.mem_append.mp hc with h | h
    · exact digit_not_space (hall c h)
    · simp only [List.mem_cons, List.not_mem_nil, or_false] at h
      rcases h with rfl | rfl <;> decide
  have hstrip : pyStripList (l ++ ['.', '0']) = l ++ ['.', '0'] :=
    pyStripList_of_all_neg hnospace
  have hsign : parseSign (l ++ ['.', '0']) = (false, l ++ ['.', '0']) := by
    refine parseSign_no_sign (fun d hd => ?_)
    have hd' : d ∈ l ++ ['.', '0'] := List.mem_of_mem_head? hd
    rcases List.mem_append.mp hd' with h | h
    · exact digit_ne_sign (hall d h)
    · -- the head of l ++ [., 0] is the head of the nonempty all-digit l
      cases l with
      | nil => exact absurd rfl hne
      | cons c rest =>
        simp only [List.cons_append, List.head?_cons, Option.some.injEq] at hd
        subst hd
        exact digit_ne_sign (hall c (List.mem_cons_self c rest))
  have hspan : pySpanDigits (l ++ ['.', '0']) = (l, [] ++ ['.', '0']) := by
    rw [pySpanDigits_append, pySpanDigits_all hall]
    intro d hd
    simp only [List.head?_cons, Option.some.injEq] at hd
    subst hd
    decide
  have hemp : l.isEmpty = false := by
    cases l with
    | nil => exact absurd rfl hne
    | cons c rest => rfl
  have h0 : pyIsDigit '0' = true := by decide
  simp only [pyIntOfFloatStr, hstrip, hsign, hspan, hemp]
  simp only [List.nil_append, pySpanDigits, h0, if_true]
  simp only [parseExpPart]
  simp [digitsToNat_append_zero, Nat.mul_div_cancel]

/-! ## Evaluation lemmas for format_roll_value -/

lemma format_roll_value_some {v : CellVal} {n : Int} (hv : v ≠ .na)
    (hb : pyStrip (pyStr v) ≠ "") (hc : pyCellToInt v = some n) :
    format_roll_value v = pyZfill (Int.repr n) 3 := by
  unfold format_roll_value
  rw [if_neg hv, if_neg hb, hc]

lemma format_roll_value_none {v : CellVal} (hv : v ≠ .na)
    (hb : pyStrip (pyStr v) ≠ "") (hc : pyCellToInt v = none) :
    format_roll_value v = pyTake (pyZfill (pyStr v) 3) 3 := by
  unfold format_roll_value
  rw [if_neg hv, if_neg hb, hc]

lemma pyStrip_ne_empty {s : String} (h : ∀ c ∈ s.data, pyIsSpace c = false)
    (hne : s.data ≠ []) : pyStrip s ≠ "" := by
  rw [pyStrip_of_all_neg h]
  intro he
  exact hne (congrArg String.data he)

lemma natRepr_data_ne_nil {m : Nat} (h : m < 1000) : (Nat.repr m).data ≠ [] := by
  obtain ⟨h1, -, -, -⟩ := natRepr_facts m h
  intro he
  rw [show (Nat.repr m).length = (Nat.repr m).data.length from rfl, he] at h1
  simp at h1

lemma natRepr_nospace {m : Nat} (h : m < 1000) :
    ∀ c ∈ (Nat.repr m).data, pyIsSpace c = false := by
  obtain ⟨-, -, -, hdig⟩ := natRepr_facts m h
  exact fun c hc => digit_not_space (hdig c hc)

lemma pyZfill_data_no_sign {s : String} {w : Nat} (hne : s.data ≠ [])
    (h : ∀ d, s.data.head? = some d → d ≠ '+' ∧ d ≠ '-') :
    (pyZfill s w).data = List.replicate (w - s.length) '0' ++ s.data := by
  obtain ⟨l⟩ := s
  cases l with
  | nil => exact absurd rfl hne
  | cons c rest =>
    obtain ⟨h1, h2⟩ := h c rfl
    simp only [pyZfill]
    rw [if_neg]
    · rfl
    · rintro (hc | hc) <;> [exact h1 hc; exact h2 hc]

/-- CLAIM C10.  For every n between 0 and 999, the roll normalizer is
invariant under the numeric representation of n: the integer n, the
float of value n, the decimal string of n, and the decimal string with
a trailing .0 all normalize to the same zero-padded 3-character
decimal digit string of n. -/
theorem format_roll_value_numeric_invariance (n : Nat) (hn : n < 1000) :
    format_roll_value (.int (n : Int)) = pyZfill (Nat.repr n) 3 ∧
    format_roll_value (.intFloat (n : Int)) = pyZfill (Nat.repr n) 3 ∧
    format_roll_value (.str (Nat.repr n)) = pyZfill (Nat.repr n) 3 ∧
    format_roll_value (.str (Nat.repr n ++ ".0")) = pyZfill (Nat.repr n) 3 ∧
    (pyZfill (Nat.repr n) 3).length = 3 ∧
    (∀ c ∈ (pyZfill (Nat.repr n) 3).data, pyIsDigit c = true) := by
  obtain ⟨hlen1, hlen3, hround, hdig⟩ := natRepr_facts n hn
  have hnospace := natRepr_nospace hn
  have hnenil := natRepr_data_ne_nil hn
  have hdot_data : (Nat.repr n ++ ".0").data = (Nat.repr n).data ++ ['.', '0'] := by
    rw [String.data_append]
  have hplain : pyStrip (Nat.repr n) ≠ "" := pyStrip_ne_empty hnospace hnenil
  have hdotspace : ∀ c ∈ (Nat.repr n ++ ".0").data, pyIsSpace c = false := by
    rw [hdot_data]
    intro c hc
    rcases List.mem_append.mp hc with h | h
    · exact hnospace c h
    · simp only [List.mem_cons, List.not_mem_nil, or_false] at h
      rcases h with rfl | rfl <;> decide
  have hdotnil : (Nat.repr n ++ ".0").data ≠ [] := by
    rw [hdot_data]
    simp
  have hdot : pyStrip (Nat.repr n ++ ".0") ≠ "" := pyStrip_ne_empty hdotspace hdotnil
  refine ⟨?_, ?_, ?_, ?_, ?_, ?_⟩
  · exact @format_roll_value_some (.int (Int.ofNat n)) (Int.ofNat n)
      (fun h => CellVal.noConfusion h) hplain rfl
  · exact @format_roll_value_some (.intFloat (Int.ofNat n)) (Int.ofNat n)
      (fun h => CellVal.noConfusion h) hdot rfl
  · have hcoerce : pyCellToInt (.str (Nat.repr n)) = some (Int.ofNat n) := by
      show pyIntOfFloatStr (Nat.repr n) = some (Int.ofNat n)
      have h1 := pyIntOfFloatStr_digits hnenil hdig
      rw [hround] at h1
      exact h1
    exact @format_roll_value_some (.str (Nat.repr n)) (Int.ofNat n)
      (fun h => CellVal.noConfusion h) hplain hcoerce
  · have hcoerce : pyCellToInt (.str (Nat.repr n ++ ".0")) = some (Int.ofNat n) := by
      show pyIntOfFloatStr (Nat.repr n ++ ".0") = some (Int.ofNat n)
      have heq : Nat.repr n ++ ".0" = String.mk ((Nat.repr n).data ++ ['.', '0']) := by
        rw [← hdot_data]
      rw [heq]
      have h1 := pyIntOfFloatStr_digits_dot0 hnenil hdig
      rw [hround] at h1
      exact h1
    exact @format_roll_value_some (.str (Nat.repr n ++ ".0")) (Int.ofNat n)
      (fun h => CellVal.noConfusion h) hdot hcoerce
  · rw [pyZfill_length]
    show max 3 (Nat.repr n).length = 3
    omega
  · intro c hc
    rw [pyZfill_data_no_sign hnenil
      (fun d hd => And.symm (digit_ne_sign (hdig d (List.mem_of_mem_head? hd))))] at hc
    rcases List.mem_append.mp hc with h | h
    · rw [List.eq_of_mem_replicate h]
      decide
    · exact hdig c h

/-- Witness for C10 at a concrete input. -/
theorem format_roll_value_numeric_invariance_witness :
    format_roll_value (.int ((7 : Nat) : Int)) = pyZfill (Nat.repr 7) 3 ∧
    format_roll_value (.intFloat ((7 : Nat) : Int)) = pyZfill (Nat.repr 7) 3 ∧
    format_roll_value (.str (Nat.repr 7)) = pyZfill (Nat.repr 7) 3 ∧
    format_roll_value (.str (Nat.repr 7 ++ ".0")) = pyZfill (Nat.repr 7) 3 ∧
    (pyZfill (Nat.repr 7) 3).length = 3 ∧
    (∀ c ∈ (pyZfill (Nat.repr 7) 3).data, pyIsDigit c = true) :=
  format_roll_value_numeric_invariance 7 (by decide)

/-! ## Length facts for the integer representation in the bounded range -/

lemma intRepr_len3 {n : Int} (h1 : -99 ≤ n) (h2 : n ≤ 999) : (Int.repr n).length ≤ 3 := by
  cases n with
  | ofNat m =>
    have h2' : (m : Int) ≤ 999 := h2
    have hm : m < 1000 := by omega
    obtain ⟨-, hlen, -, -⟩ := natRepr_facts m hm
    exact hlen
  | negSucc m =>
    rw [Int.negSucc_eq] at h1
    have hm : m + 1 < 100 := by omega
    have hlen := natRepr_le2 (m + 1) hm
    have hlen' : (Nat.repr (m + 1)).data.length ≤ 2 := hlen
    have hdash : ("-" : String).data.length = 1 := by decide
    show (("-" : String) ++ Nat.repr (m + 1)).data.length ≤ 3
    rw [String.data_append, List.length_append]
    omega

lemma intRepr_nospace {n : Int} (h1 : -99 ≤ n) (h2 : n ≤ 999) :
    ∀ c ∈ (Int.repr n).data, pyIsSpace c = false := by
  cases n with
  | ofNat m =>
    have h2' : (m : Int) ≤ 999 := h2
    have hm : m < 1000 := by omega
    exact natRepr_nospace hm
  | negSucc m =>
    rw [Int.negSucc_eq] at h1
    have hm : m + 1 < 1000 := by omega
    intro c hc
    have hc' : c ∈ (("-" : String) ++ Nat.repr (m + 1)).data := hc
    rw [String.data_append] at hc'
    rcases List.mem_append.mp hc' with h | h
    · simp only [List.mem_cons, List.not_mem_nil, or_false] at h
      subst h
      decide
    · exact natRepr_nospace hm c h

lemma intRepr_ne_nil {n : Int} (h1 : -99 ≤ n) (h2 : n ≤ 999) : (Int.repr n).data ≠ [] := by
  cases n with
  | ofNat m =>
    have h2' : (m : Int) ≤ 999 := h2
    have hm : m < 1000 := by omega
    exact natRepr_data_ne_nil hm
  | negSucc m =>
    intro he
    have h3 : (("-" : String) ++ Nat.repr (m + 1)).data = [] := he
    rw [String.data_append] at h3
    simp at h3

/-- CLAIM C1, counterexample.  The roll normalizer does not always
return a string of length exactly 3: numeric input of value 1000 or
more is zero-filled but never truncated on the numeric path, so the
input string 1000 (and the integer 1000) normalize to the 4-character
string 1000. -/
theorem format_roll_value_len4 :
    format_roll_value (.str "1000") = "1000" ∧
    format_roll_value (.int 1000) = "1000" ∧
    (format_roll_value (.str "1000")).length = 4 := by decide

/-- CLAIM C1, amended.  Whenever the numeric coercion of the input,
if it succeeds, yields a value between -99 and 999 (in particular for
every non-numeric, blank, or in-range numeric input), the roll
normalizer returns a string of length exactly 3; blank or missing
input gives 000, in-range numeric input is zero-padded, and input
whose coercion fails is zero-filled and cut to 3 characters. -/
theorem format_roll_value_spec (v : CellVal)
    (h : ∀ n : Int, pyCellToInt v = some n → -99 ≤ n ∧ n ≤ 999) :
    (format_roll_value v).length = 3 ∧
    format_roll_value .na = "000" ∧
    format_roll_value (.str "") = "000" ∧
    format_roll_value (.str "7") = "007" ∧
    format_roll_value (.str "12.0") = "012" ∧
    (format_roll_value (.str "abc")).length = 3 := by
  refine ⟨?_, rfl, by decide, by decide, by decide, by decide⟩
  have hlen_some : ∀ w : CellVal, w ≠ .na → pyStrip (pyStr w) ≠ "" →
      (∀ n : Int, pyCellToInt w = some n → -99 ≤ n ∧ n ≤ 999) →
      (format_roll_value w).length = 3 := by
    intro w hw hb hbound
    cases hc : pyCellToInt w with
    | some n =>
      obtain ⟨hl, hr⟩ := hbound n hc
      rw [format_roll_value_some hw hb hc, pyZfill_length]
      have h3 := intRepr_len3 hl hr
      omega
    | none =>
      rw [format_roll_value_none hw hb hc, pyTake_length, pyZfill_length]
      omega
  cases v with
  | na => decide
  | str s =>
    by_cases hb : pyStrip (pyStr (.str s)) = ""
    · unfold format_roll_value
      rw [if_neg (fun hh => CellVal.noConfusion hh), if_pos hb]
      decide
    · exact hlen_some (.str s) (fun hh => CellVal.noConfusion hh) hb h
  | int n =>
    obtain ⟨hl, hr⟩ := h n rfl
    refine hlen_some (.int n) (fun hh => CellVal.noConfusion hh) ?_ h
    exact pyStrip_ne_empty (intRepr_nospace hl hr) (intRepr_ne_nil hl hr)
  | intFloat n =>
    obtain ⟨hl, hr⟩ := h n rfl
    refine hlen_some (.intFloat n) (fun hh => CellVal.noConfusion hh) ?_ h
    show pyStrip (Int.repr n ++ ".0") ≠ ""
    refine pyStrip_ne_empty ?_ ?_
    · rw [String.data_append]
      intro c hc
      rcases List.mem_append.mp hc with hm | hm
      · exact intRepr_nospace hl hr c hm
      · simp only [List.mem_cons, List.not_mem_nil, or_false] at hm
        rcases hm with rfl | rfl <;> decide
    · rw [String.data_append]
      simp [intRepr_ne_nil hl hr]

/-- Witness for the amended C1 at a concrete input. -/
theorem format_roll_value_spec_witness :
    (format_roll_value (.str "7")).length = 3 ∧
    format_roll_value .na = "000" ∧
    format_roll_value (.str "") = "000" ∧
    format_roll_value (.str "7") = "007" ∧
    format_roll_value (.str "12.0") = "012" ∧
    (format_roll_value (.str "abc")).length = 3 :=
  format_roll_value_spec (.str "7") (by
    intro n hn
    have h7 : pyCellToInt (.str "7") = some 7 := by decide
    rw [h7] at hn
    injection hn with hv
    omega)

/-! ## Lower-casing and stripping preserve the first digit run -/

lemma toNat_toLower (c : Char) :
    (Char.toLower c).toNat = if 65 ≤ c.toNat ∧ c.toNat ≤ 90 then c.toNat + 32 else c.toNat := by
  show (let n := Char.toNat c;
        if n ≥ 65 ∧ n ≤ 90 then Char.ofNat (n + 32) else c).toNat = _
  by_cases h : 65 ≤ c.toNat ∧ c.toNat ≤ 90
  · rw [if_pos h, if_pos ⟨h.1, h.2⟩]
    have hv : Nat.isValidChar (c.toNat + 32) := Or.inl (by omega)
    rw [Char.ofNat, dif_pos hv]
    rfl
  · rw [if_neg h, if_neg h]

lemma pyIsDigit_toLower (c : Char) : pyIsDigit (Char.toLower c) = pyIsDigit c := by
  simp only [pyIsDigit, toNat_toLower]
  by_cases h : 65 ≤ c.toNat ∧ c.toNat ≤ 90
  · rw [if_pos h]
    simp only [decide_eq_decide]
    omega
  · rw [if_neg h]

lemma toLower_of_digit {c : Char} (h : pyIsDigit c = true) : Char.toLower c = c := by
  have h' : 48 ≤ c.toNat ∧ c.toNat ≤ 57 := of_decide_eq_true h
  show (let n := Char.toNat c;
        if n ≥ 65 ∧ n ≤ 90 then Char.ofNat (n + 32) else c) = c
  rw [if_neg]
  omega

lemma pySpanDigits_map_toLower (l : List Char) :
    pySpanDigits (l.map Char.toLower) =
      ((pySpanDigits l).1, ((pySpanDigits l).2).map Char.toLower) := by
  induction l with
  | nil => rfl
  | cons c rest ih =>
    by_cases hc : pyIsDigit c = true
    · have hlc : pyIsDigit (Char.toLower c) = true := by rw [pyIsDigit_toLower]; exact hc
      simp only [List.map_cons, pySpanDigits, hc, hlc, if_true, ih, toLower_of_digit hc]
    · have hlc : pyIsDigit (Char.toLower c) = false := by
        rw [pyIsDigit_toLower]
        exact Bool.not_eq_true _ ▸ hc
      simp only [Bool.not_eq_true] at hc
      simp only [List.map_cons, pySpanDigits, hc, hlc, Bool.false_eq_true, if_false]

lemma firstDigitRun_map_toLower (l : List Char) :
    firstDigitRun (l.map Char.toLower) = firstDigitRun l := by
  induction l with
  | nil => rfl
  | cons c rest ih =>
    by_cases hc : pyIsDigit c = true
    · have hlc : pyIsDigit (Char.toLower c) = true := by rw [pyIsDigit_toLower]; exact hc
      simp only [List.map_cons, firstDigitRun, hc, hlc, if_true, toLower_of_digit hc,
        pySpanDigits_map_toLower]
    · have hlc : pyIsDigit (Char.toLower c) = false := by
        rw [pyIsDigit_toLower]
        exact Bool.not_eq_true _ ▸ hc
      simp only [Bool.not_eq_true] at hc
      simp only [List.map_cons, firstDigitRun, hc, hlc, Bool.false_eq_true, if_false, ih]

lemma firstDigitRun_of_nodigit {l : List Char}
    (h : ∀ c ∈ l, pyIsDigit c = false) : firstDigitRun l = none := by
  induction l with
  | nil => rfl
  | cons c rest ih =>
    have hc := h c (List.mem_cons_self c rest)
    simp only [firstDigitRun, hc, Bool.false_eq_true, if_false]
    exact ih (fun d hd => h d (List.mem_cons_of_mem c hd))

lemma firstDigitRun_append_nodigit {a t : List Char}
    (h : ∀ c ∈ t, pyIsDigit c = false) :
    firstDigitRun (a ++ t) = firstDigitRun a := by
  induction a with
  | nil =>
    simp only [List.nil_append]
    exact firstDigitRun_of_nodigit h
  | cons c rest ih =>
    by_cases hc : pyIsDigit c = true
    · have hspan : pySpanDigits (rest ++ t) = ((pySpanDigits rest).1, (pySpanDigits rest).2 ++ t) := by
        refine pySpanDigits_append (fun d hd => h d (List.mem_of_mem_head? ?_))
        exact hd
      simp only [List.cons_append, firstDigitRun, hc, if_true, List.append_eq]
      rw [hspan]
    · simp only [Bool.not_eq_true] at hc
      simp only [List.cons_append, firstDigitRun, hc, Bool.false_eq_true, if_false,
        List.append_eq]
      exact ih

lemma firstDigitRun_dropWhile_space (l : List Char) :
    firstDigitRun (l.dropWhile pyIsSpace) = firstDigitRun l := by
  induction l with
  | nil => rfl
  | cons c rest ih =>
    by_cases hc : pyIsSpace c = true
    · have hd : pyIsDigit c = false := by
        have h' : c.toNat = 32 ∨ (9 ≤ c.toNat ∧ c.toNat ≤ 13) := of_decide_eq_true hc
        simp only [pyIsDigit, decide_eq_false_iff_not]
        omega
      rw [List.dropWhile_cons, if_pos hc, ih]
      simp only [firstDigitRun, hd, Bool.false_eq_true, if_false]
    · simp only [Bool.not_eq_true] at hc
      rw [List.dropWhile_cons, if_neg (by simp [hc])]

lemma firstDigitRun_pyStripList (l : List Char) :
    firstDigitRun (pyStripList l) = firstDigitRun l := by
  unfold pyStripList
  set m := l.dropWhile pyIsSpace with hm
  have hsplit : m = (m.reverse.dropWhile pyIsSpace).reverse ++ (m.reverse.takeWhile pyIsSpace).reverse := by
    conv_lhs => rw [← List.reverse_reverse m]
    rw [← List.takeWhile_append_dropWhile pyIsSpace m.reverse, List.reverse_append]
    rw [List.takeWhile_append_dropWhile]
  have htail : ∀ c ∈ (m.reverse.takeWhile pyIsSpace).reverse, pyIsDigit c = false := by
    intro c hc
    have hc' : c ∈ m.reverse.takeWhile pyIsSpace := List.mem_reverse.mp hc
    have hsp : pyIsSpace c = true := List.mem_takeWhile_imp hc'
    have h' : c.toNat = 32 ∨ (9 ≤ c.toNat ∧ c.toNat ≤ 13) := of_decide_eq_true hsp
    simp only [pyIsDigit, decide_eq_false_iff_not]
    omega
  calc firstDigitRun (m.reverse.dropWhile pyIsSpace).reverse
      = firstDigitRun ((m.reverse.dropWhile pyIsSpace).reverse ++ (m.reverse.takeWhile pyIsSpace).reverse) :=
        (firstDigitRun_append_nodigit htail).symm
    _ = firstDigitRun m := by rw [← hsplit]
    _ = firstDigitRun l := firstDigitRun_dropWhile_space l

lemma firstDigitRun_all_digits {l : List Char} (hne : l ≠ [])
    (h : ∀ c ∈ l, pyIsDigit c = true) : firstDigitRun l = some l := by
  cases l with
  | nil => exact absurd rfl hne
  | cons c rest =>
    have hc := h c (List.mem_cons_self c rest)
    simp only [firstDigitRun, hc, if_true]
    rw [pySpanDigits_all (fun d hd => h d (List.mem_cons_of_mem c hd))]

/-- CLAIM C4.  The grade parser follows the spec's priority chain:
missing gives unknown; a string containing a digit run parses to the
integer value of its first digit run (digit extraction is tried before
the roman numeral and ordinal word tables); the exact roman numerals
i..xii and ordinal words first..twelfth map to 1..12; everything else
gives unknown. -/
theorem parse_class_value_spec (s : String) (run : List Char)
    (h : firstDigitRun s.data = some run) :
    parse_class_value (.str s) = some ((digitsToNat run : Nat) : Int) ∧
    parse_class_value .na = none ∧
    parse_class_value (.str "Class 7B") = some 7 ∧
    parse_class_value (.str "VII") = some 7 ∧
    parse_class_value (.str "seventh") = some 7 ∧
    parse_class_value (.str "") = none ∧
    (∀ p ∈ romanMap, parse_class_value (.str p.1) = some p.2) ∧
    (∀ p ∈ wordsMap, parse_class_value (.str p.1) = some p.2) := by
  refine ⟨?_, rfl, by decide, by decide, by decide, by decide, by decide, by decide⟩
  have hrun : firstDigitRun (pyLower (pyStrip s)).data = some run := by
    show firstDigitRun ((pyStripList s.data).map Char.toLower) = some run
    rw [firstDigitRun_map_toLower, firstDigitRun_pyStripList, h]
  by_cases hd : pyIsDigitStr (pyLower (pyStrip s)) = true
  · obtain ⟨hne, hall⟩ : (pyLower (pyStrip s)).data.isEmpty = false ∧
        ∀ c ∈ (pyLower (pyStrip s)).data, pyIsDigit c = true := by
      simpa only [pyIsDigitStr, Bool.and_eq_true, Bool.not_eq_true', List.all_eq_true] using hd
    have hne' : (pyLower (pyStrip s)).data ≠ [] := by
      intro he
      rw [he] at hne
      exact absurd hne (by decide)
    have hfull := firstDigitRun_all_digits hne' hall
    rw [hfull] at hrun
    injection hrun with hrun'
    simp only [parse_class_value, pyStr, hd, if_true]
    rw [hrun']
  · simp only [parse_class_value, pyStr, hd, Bool.false_eq_true, if_false]
    rw [hrun]

/-- Witness for C4 at a concrete input. -/
theorem parse_class_value_spec_witness :
    parse_class_value (.str "Class 7B") = some ((digitsToNat ['7'] : Nat) : Int) ∧
    parse_class_value .na = none ∧
    parse_class_value (.str "Class 7B") = some 7 ∧
    parse_class_value (.str "VII") = some 7 ∧
    parse_class_value (.str "seventh") = some 7 ∧
    parse_class_value (.str "") = none ∧
    (∀ p ∈ romanMap, parse_class_value (.str p.1) = some p.2) ∧
    (∀ p ∈ wordsMap, parse_class_value (.str p.1) = some p.2) :=
  parse_class_value_spec "Class 7B" ['7'] (by decide)

/-! ## Bubble geometry lemmas -/

lemma fillBubblesFrom_eq_spec (xs ys : List ℚ) (sp rad off : ℚ) :
    ∀ (l : List Char) (i : Nat), i + l.length ≤ xs.length → i + l.length ≤ ys.length →
    fillBubblesFrom xs ys sp rad off i l =
      some ((l.enumFrom i).filterMap fun p =>
        if pyIsDigit p.2 then some (specBubbleAt xs ys sp rad off p.1 (charDigitVal p.2))
        else none) := by
  intro l
  induction l with
  | nil => intro i _ _; rfl
  | cons c rest ih =>
    intro i hx hy
    simp only [List.length_cons] at hx hy
    have hix : i < xs.length := by omega
    have hiy : i < ys.length := by omega
    have hxe := List.getElem?_eq_getElem hix
    have hye := List.getElem?_eq_getElem hiy
    have ih' := ih (i + 1) (by omega) (by omega)
    by_cases hc : pyIsDigit c = true
    · simp only [fillBubblesFrom, hc, if_true, hxe, hye, ih', List.enumFrom_cons,
        List.filterMap_cons, specBubbleAt, List.getD_eq_getElem?_getD, Option.getD_some]
    · simp only [Bool.not_eq_true] at hc
      simp only [fillBubblesFrom, hc, Bool.false_eq_true, if_false, ih', List.enumFrom_cons,
        List.filterMap_cons]

lemma fillBubblesFrom_overflow (xs ys : List ℚ) (sp rad off : ℚ) :
    ∀ (l : List Char) (i : Nat), (∀ c ∈ l, pyIsDigit c = true) →
    i ≤ xs.length → xs.length < i + l.length →
    fillBubblesFrom xs ys sp rad off i l = none := by
  intro l
  induction l with
  | nil =>
    intro i _ h1 h2
    simp only [List.length_nil] at h2
    omega
  | cons c rest ih =>
    intro i hall h1 h2
    have hc : pyIsDigit c = true := hall c (List.mem_cons_self c rest)
    by_cases hi : i < xs.length
    · have hxe := List.getElem?_eq_getElem hi
      have ih' := ih (i + 1) (fun d hd => hall d (List.mem_cons_of_mem c hd))
        (by omega) (by simp only [List.length_cons] at h2; omega)
      cases hye : ys[i]? with
      | none => simp [fillBubblesFrom, hc, hxe, hye]
      | some yt => simp [fillBubblesFrom, hc, hxe, hye, ih']
    · have hxe : xs[i]? = none := by
        rw [List.getElem?_eq_none]
        omega
      cases hye : ys[i]? with
      | none => simp [fillBubblesFrom, hc, hxe, hye]
      | some yt => simp [fillBubblesFrom, hc, hxe, hye]

/-- CLAIM C6.  For either variant and any 3-character roll string, the
drawn bubbles are exactly those given by the specification formula: for
the digit at column i with value d, y = column_y_top[i] * cm - d *
spacing * cm - 2.6 cm + fine-tune offset (0.03 cm master, 0.2 cm
child) and x = (column x in cm) * cm / 2.2, digits left to right,
non-digit characters skipped. -/
theorem fill_roll_bubbles_formula (s : String) (h : s.length = 3) :
    fill_roll_bubbles_master s =
      some (specBubbles MASTER_ROLL_X_CM MASTER_BUBBLE_Y_TOP_CM MASTER_BUBBLE_SPACING_CM
        MASTER_BUBBLE_RADIUS_CM 0.03 s) ∧
    fill_roll_bubbles_child s =
      some (specBubbles CHILD_ROLL_X_CM CHILD_BUBBLE_Y_TOP_CM CHILD_BUBBLE_SPACING_CM
        CHILD_BUBBLE_RADIUS_CM 0.2 s) := by
  have hz : pyZfill s 3 = s := pyZfill_of_le s 3 (by omega)
  have hdata : s.data.length = 3 := h
  constructor
  · show fillBubblesFrom MASTER_ROLL_X_CM MASTER_BUBBLE_Y_TOP_CM MASTER_BUBBLE_SPACING_CM
      MASTER_BUBBLE_RADIUS_CM 0.03 0 (pyZfill s 3).data = _
    rw [hz]
    rw [fillBubblesFrom_eq_spec MASTER_ROLL_X_CM MASTER_BUBBLE_Y_TOP_CM MASTER_BUBBLE_SPACING_CM
      MASTER_BUBBLE_RADIUS_CM 0.03 s.data 0 (by rw [hdata]; rfl) (by rw [hdata]; rfl)]
    rfl
  · show fillBubblesFrom CHILD_ROLL_X_CM CHILD_BUBBLE_Y_TOP_CM CHILD_BUBBLE_SPACING_CM
      CHILD_BUBBLE_RADIUS_CM 0.2 0 (pyZfill s 3).data = _
    rw [hz]
    rw [fillBubblesFrom_eq_spec CHILD_ROLL_X_CM CHILD_BUBBLE_Y_TOP_CM CHILD_BUBBLE_SPACING_CM
      CHILD_BUBBLE_RADIUS_CM 0.2 s.data 0 (by rw [hdata]; rfl) (by rw [hdata]; rfl)]
    rfl

/-- Witness for C6 at a concrete input. -/
theorem fill_roll_bubbles_formula_witness :
    fill_roll_bubbles_master "042" =
      some (specBubbles MASTER_ROLL_X_CM MASTER_BUBBLE_Y_TOP_CM MASTER_BUBBLE_SPACING_CM
        MASTER_BUBBLE_RADIUS_CM 0.03 "042") ∧
    fill_roll_bubbles_child "042" =
      some (specBubbles CHILD_ROLL_X_CM CHILD_BUBBLE_Y_TOP_CM CHILD_BUBBLE_SPACING_CM
        CHILD_BUBBLE_RADIUS_CM 0.2 "042") :=
  fill_roll_bubbles_formula "042" (by decide)

/-- CLAIM C9.  The bubble-filling loops are total only for roll
strings of at most 3 characters: an all-digit string longer than 3
(such as the normalizer output 1000 on the integer 1000) runs the
column index past the 3-element constant lists, modelled as none; a
string of at most 3 characters always succeeds and draws at most one
bubble per character of the padded string. -/
theorem fill_roll_bubbles_partiality (s t : String)
    (hs : 3 < s.length) (hd : ∀ c ∈ s.data, pyIsDigit c = true) (ht : t.length ≤ 3) :
    fill_roll_bubbles_master s = none ∧
    fill_roll_bubbles_child s = none ∧
    format_roll_value (.int 1000) = "1000" ∧
    (∃ bs, fill_roll_bubbles_master t = some bs ∧ bs.length ≤ 3) ∧
    (∃ bs, fill_roll_bubbles_child t = some bs ∧ bs.length ≤ 3) := by
  have hz : pyZfill s 3 = s := pyZfill_of_le s 3 (by omega)
  have hzt : (pyZfill t 3).length = 3 := by
    rw [pyZfill_length]
    omega
  have hzt' : (pyZfill t 3).data.length = 3 := hzt
  refine ⟨?_, ?_, by decide, ?_, ?_⟩
  · show fillBubblesFrom MASTER_ROLL_X_CM MASTER_BUBBLE_Y_TOP_CM MASTER_BUBBLE_SPACING_CM
      MASTER_BUBBLE_RADIUS_CM 0.03 0 (pyZfill s 3).data = none
    rw [hz]
    refine fillBubblesFrom_overflow _ _ _ _ _ s.data 0 hd (by omega) ?_
    show MASTER_ROLL_X_CM.length < 0 + s.data.length
    have hlen : MASTER_ROLL_X_CM.length = 3 := rfl
    have hsd : s.length = s.data.length := rfl
    omega
  · show fillBubblesFrom CHILD_ROLL_X_CM CHILD_BUBBLE_Y_TOP_CM CHILD_BUBBLE_SPACING_CM
      CHILD_BUBBLE_RADIUS_CM 0.2 0 (pyZfill s 3).data = none
    rw [hz]
    refine fillBubblesFrom_overflow _ _ _ _ _ s.data 0 hd (by omega) ?_
    show CHILD_ROLL_X_CM.length < 0 + s.data.length
    have hlen : CHILD_ROLL_X_CM.length = 3 := rfl
    have hsd : s.length = s.data.length := rfl
    omega
  · refine ⟨_, fillBubblesFrom_eq_spec MASTER_ROLL_X_CM MASTER_BUBBLE_Y_TOP_CM
      MASTER_BUBBLE_SPACING_CM MASTER_BUBBLE_RADIUS_CM 0.03 (pyZfill t 3).data 0
      (by rw [hzt']; rfl) (by rw [hzt']; rfl), ?_⟩
    calc (((pyZfill t 3).data.enumFrom 0).filterMap _).length
        ≤ ((pyZfill t 3).data.enumFrom 0).length := List.length_filterMap_le _ _
      _ = (pyZfill t 3).data.length := List.enumFrom_length
      _ = 3 := hzt'
  · refine ⟨_, fillBubblesFrom_eq_spec CHILD_ROLL_X_CM CHILD_BUBBLE_Y_TOP_CM
      CHILD_BUBBLE_SPACING_CM CHILD_BUBBLE_RADIUS_CM 0.2 (pyZfill t 3).data 0
      (by rw [hzt']; rfl) (by rw [hzt']; rfl), ?_⟩
    calc (((pyZfill t 3).data.enumFrom 0).filterMap _).length
        ≤ ((pyZfill t 3).data.enumFrom 0).length := List.length_filterMap_le _ _
      _ = (pyZfill t 3).data.length := List.enumFrom_length
      _ = 3 := hzt'

/-- Witness for C9 at concrete inputs. -/
theorem fill_roll_bubbles_partiality_witness :
    fill_roll_bubbles_master "1000" = none ∧
    fill_roll_bubbles_child "1000" = none ∧
    format_roll_value (.int 1000) = "1000" ∧
    (∃ bs, fill_roll_bubbles_master "007" = some bs ∧ bs.length ≤ 3) ∧
    (∃ bs, fill_roll_bubbles_child "007" = some bs ∧ bs.length ≤ 3) :=
  fill_roll_bubbles_partiality "1000" "007" (by decide) (by decide) (by decide)

/-- CLAIM C7.  Column resolution lower-cases headers and deletes
non-alphanumeric characters (the normalized form holds only a-z and
0-9), then returns the first header in order whose normalized form
equals some alias, else the first whose normalized form contains some
alias, else none; the headers Roll No., ROLLNO and roll_no all
normalize to rollno and resolve in the exact pass. -/
theorem find_column_spec (cols : List (String × String)) (al : List String) :
    find_column cols al =
      (((cols.find? fun p => al.any fun a => p.2 == a).map Prod.fst).or
        ((cols.find? fun p => al.any fun a => containsSub p.2.data a.data).map Prod.fst)) ∧
    normalize_col_name "Roll No." = "rollno" ∧
    normalize_col_name "ROLLNO" = "rollno" ∧
    normalize_col_name "roll_no" = "rollno" ∧
    (∀ h ∈ (["Roll No.", "ROLLNO", "roll_no"] : List String),
      find_column [(h, normalize_col_name h)] ["rollno", "rollnumber", "roll_no"] = some h) ∧
    find_column [("Roll Number X", "rollnumberx"), ("RollNo", "rollno")]
      ["rollno", "rollnumber", "roll_no"] = some "RollNo" ∧
    (∀ s : String, ∀ c ∈ (normalize_col_name s).data,
      pyIsDigit c = true ∨ (97 ≤ c.toNat ∧ c.toNat ≤ 122)) := by
  refine ⟨?_, by decide, by decide, by decide, by decide, by decide, ?_⟩
  · unfold find_column
    cases h1 : cols.find? (fun p => al.any fun a => p.2 == a) with
    | some p => simp [Option.or]
    | none =>
      cases h2 : cols.find? (fun p => al.any fun a => containsSub p.2.data a.data) with
      | some p => simp [Option.or]
      | none => simp [Option.or]
  · intro s c hc
    by_cases hs : s = ""
    · rw [normalize_col_name, if_pos hs] at hc
      simp at hc
    · rw [normalize_col_name, if_neg hs] at hc
      have hc' := List.mem_filter.mp hc
      rcases Bool.or_eq_true _ _ |>.mp hc'.2 with h | h
      · exact Or.inl h
      · exact Or.inr (of_decide_eq_true h)

/-- Witness for C7 at a concrete input. -/
theorem find_column_spec_witness :
    find_column [("Roll No.", "rollno")] ["rollno"] =
      ((([(("Roll No." : String), ("rollno" : String))].find?
          fun p => ["rollno"].any fun a => p.2 == a).map Prod.fst).or
        (([(("Roll No." : String), ("rollno" : String))].find?
          fun p => ["rollno"].any fun a => containsSub p.2.data a.data).map Prod.fst)) ∧
    normalize_col_name "Roll No." = "rollno" ∧
    normalize_col_name "ROLLNO" = "rollno" ∧
    normalize_col_name "roll_no" = "rollno" ∧
    (∀ h ∈ (["Roll No.", "ROLLNO", "roll_no"] : List String),
      find_column [(h, normalize_col_name h)] ["rollno", "rollnumber", "roll_no"] = some h) ∧
    find_column [("Roll Number X", "rollnumberx"), ("RollNo", "rollno")]
      ["rollno", "rollnumber", "roll_no"] = some "RollNo" ∧
    (∀ s : String, ∀ c ∈ (normalize_col_name s).data,
      pyIsDigit c = true ∨ (97 ≤ c.toNat ∧ c.toNat ≤ 122)) :=
  find_column_spec [("Roll No.", "rollno")] ["rollno"]

/-- Witness for C5 at a concrete input. -/
theorem select_variant_spec_witness :
    (select_variant (some 2) = .child ↔
      (some 2 : Option Int) = some 1 ∨ (some 2 : Option Int) = some 2 ∨
      (some 2 : Option Int) = some 3) ∧
    select_variant (some 1) = .child ∧
    select_variant (some 3) = .child ∧
    select_variant (some 4) = .master ∧
    select_variant none = .master :=
  select_variant_spec (some 2)

end OMR
